import Mathlib

/-!
Verification of the dosing core of the NDC Packaging Quantity Calculator.

The development shallowly embeds the TypeScript sources:
  * `sig-parser.service.ts` — rule-based SIG interpretation (`parseWithRules`),
  * `calculator.service.ts` — quantity projection (`calculateTotalQuantity`,
    `parseDayRange`), package selection (`selectOptimalPackages`,
    `findOptimalCombination`) and variance analysis (`detectOverfillUnderfill`),
  * `validation.utils.ts` — `validateDaysSupply`.

JavaScript numbers are modelled by `ℚ` (the computations at stake are exact
decimal/rational arithmetic; no overflow or NaN arises on the modelled domain,
and division by zero — which JS maps to Infinity/NaN — is noted where the
convention could matter).  JavaScript regular-expression matching (leftmost
match, ordered alternation, greedy/lazy quantifiers with backtracking) is
embedded by backtracking matcher combinators over `List Char` that enumerate
candidate matches in the engine's priority order.
-/

-- Rational arithmetic and gcd must reduce for concrete evaluation of the model.
unseal Nat.gcd Rat.add Rat.mul Rat.sub Rat.inv

namespace NDCCalc

/-! ## Backtracking regex-matcher combinators

A matcher consumes a prefix of the input and returns every possible
(captures, remaining-suffix) outcome, ordered by the JS engine's backtracking
priority; the head of the list is the match the engine commits to. -/

/-- Capture groups collected so far, in group-number order. -/
abbrev Caps := List (List Char)

/-- A backtracking matcher: all candidate outcomes in priority order. -/
abbrev M := List Char → List (Caps × List Char)

/-- Empty pattern: matches nothing, consumes nothing. -/
def mEps : M := fun s => [([], s)]

/-- Literal string pattern. -/
def mLit (pat : List Char) : M := fun s =>
  if pat.isPrefixOf s then [([], s.drop pat.length)] else []

/-- Sequencing with full backtracking (`ab`). -/
def mSeq (a b : M) : M := fun s =>
  (a s).flatMap fun p => (b p.2).map fun q => (p.1 ++ q.1, q.2)

/-- Sequence a list of matchers. -/
def mSeqs : List M → M
  | [] => mEps
  | m :: ms => mSeq m (mSeqs ms)

/-- Ordered alternation of literal strings (`x|y|z`), as in a JS group. -/
def mAlts (ps : List (List Char)) : M := fun s =>
  ps.filterMap fun p =>
    if p.isPrefixOf s then some (([] : Caps), s.drop p.length) else none

/-- Greedy option (`a?`): try matching first, then skipping. -/
def mOpt (a : M) : M := fun s => a s ++ [([], s)]

/-- Greedy option around a pattern containing one capture group:
when skipped, JS reports the group as undefined; an empty placeholder capture
keeps the group numbering aligned (no caller distinguishes the two). -/
def mOptC (a : M) : M := fun s => a s ++ [([[]], s)]

/-- Length of the maximal prefix whose characters satisfy `p`. -/
def maxTake (p : Char → Bool) : List Char → Nat
  | [] => 0
  | c :: r => if p c then maxTake p r + 1 else 0

/-- Greedy star over a character class (`[p]*`): longest take first. -/
def mStarG (p : Char → Bool) : M := fun s =>
  let k := maxTake p s
  (List.range (k + 1)).map fun j => (([] : Caps), s.drop (k - j))

/-- Greedy plus over a character class (`[p]+`): longest take first,
at least one character. -/
def mPlusG (p : Char → Bool) : M := fun s =>
  let k := maxTake p s
  (List.range k).map fun j => (([] : Caps), s.drop (k - j))

/-- Lazy dot-star (`.*?`): fewest characters first.  (JS `.` excludes line
terminators; no modelled input contains one.) -/
def mLazyDot : M := fun s =>
  (List.range (s.length + 1)).map fun i => (([] : Caps), s.drop i)

/-- Capture group around `a`: records the consumed text.  All outcomes of the
combinators consume from the front, so the consumed text is the prefix of `s`
complementary to the remaining suffix. -/
def mGrp (a : M) : M := fun s =>
  (a s).map fun p => (s.take (s.length - p.2.length) :: p.1, p.2)

/-- Leftmost match: try the matcher at each start position, left to right;
return the captures of the first (highest-priority) match. -/
def mFind (m : M) : List Char → Option Caps
  | [] =>
    match m [] with
    | p :: _ => some p.1
    | [] => none
  | c :: r =>
    match m (c :: r) with
    | p :: _ => some p.1
    | [] => mFind m r

/-- `String.prototype.includes`, on char lists. -/
def containsSub (pat : List Char) : List Char → Bool
  | [] => pat.isEmpty
  | s@(_ :: r) => pat.isPrefixOf s || containsSub pat r

/-- Whether the text contains any of the given keywords. -/
def cAny (l : List Char) (pats : List String) : Bool :=
  pats.any fun p => containsSub p.data l

/-- `parseInt` on a captured digit string. -/
def digitsVal (ds : List Char) : Nat :=
  ds.foldl (fun a c => a * 10 + (c.toNat - 48)) 0

/-- `parseFloat` on a captured `\d+(\.\d+)?` string. -/
def decToRat (ds : List Char) : ℚ :=
  let ip := ds.takeWhile Char.isDigit
  let rest := ds.dropWhile Char.isDigit
  match rest with
  | _ :: fp => (digitsVal ip : ℚ) + (digitsVal fp : ℚ) / ((10 : ℚ) ^ fp.length)
  | [] => (digitsVal ip : ℚ)

/-- JS whitespace class `\s` (the sources only ever produce ASCII spaces). -/
def isWsC (c : Char) : Bool := c.isWhitespace

/-- Trim whitespace from both ends (`String.prototype.trim`). -/
def trimChars (l : List Char) : List Char :=
  ((l.dropWhile isWsC).reverse.dropWhile isWsC).reverse

/-- `sig.toLowerCase().trim()`, as a char list. -/
def normSig (s : String) : List Char :=
  trimChars (s.data.map Char.toLower)

/-! ## Data model (`calculation.types.ts`, `ndc.types.ts`)

Optional TS fields become `Option`; fields of the source records that none of
the embedded functions read (product name, manufacturer, dates, warning
message/details text, …) are omitted. -/

/-- `NDCStatus` enum. -/
inductive NDCStatus
  | active
  | inactive
  | unknown
deriving DecidableEq, Repr

/-- `PackageInfo` (fields read by the calculator: `unit`, `quantity?`). -/
structure PackageInfo where
  unit : String
  quantity : Option ℚ := none
deriving DecidableEq, Repr

/-- `NDC` (fields read by the calculator: `ndc`, `packageInfo?`, `status`). -/
structure NDC where
  ndc : String := ""
  packageInfo : Option PackageInfo := none
  status : NDCStatus
deriving DecidableEq, Repr

/-- `DosingScheduleEntry`. -/
structure DosingScheduleEntry where
  dose : ℚ
  maxDose : Option ℚ := none
  frequency : ℚ
  timeOfDay : Option String := none
  dayRange : Option String := none
  prn : Option Bool := none
deriving DecidableEq, Repr

/-- `ParsedSIG`. -/
structure ParsedSIG where
  dose : ℚ
  unit : String
  frequency : ℚ
  instructions : Option String := none
  isComplex : Option Bool := none
  schedule : Option (List DosingScheduleEntry) := none
  prn : Option Bool := none
  averageDailyDose : Option ℚ := none
deriving DecidableEq, Repr

/-- `DispenseRecommendation`. -/
structure DispenseRecommendation where
  ndc : NDC
  packageCount : ℤ
  totalQuantity : ℚ
  unit : String
  exactMatch : Bool
  overfill : Option ℚ := none
  underfill : Option ℚ := none
  variancePercentage : Option ℚ := none
deriving DecidableEq, Repr

/-- `WarningType` members used by `detectOverfillUnderfill`. -/
inductive WarningType
  | overfill
  | underfill
deriving DecidableEq, Repr

/-- `Warning`; the human-readable `message`/`details` payload is presentation
text (`toFixed` formatting) and is omitted. -/
structure Warning where
  type : WarningType
  severity : String
deriving DecidableEq, Repr

/-- `ValidationError` (`field`, `message`; the echoed `value` is omitted). -/
structure ValidationError where
  field : String
  message : String
deriving DecidableEq, Repr

/-! ## SIG parser (`sig-parser.service.ts`, rule-based path)

The regexes of `parseWithRules` are transcribed pattern-for-pattern.  The
sources apply them to text already lowercased, so the `i` flag is inert. -/

/-- The unit alternation
`(tablet|tab|capsule|cap|ml|mg|g|unit|units|puff|puffs|dose|doses)`,
in source order. -/
def unitKws : List (List Char) :=
  ["tablet".data, "tab".data, "capsule".data, "cap".data, "ml".data, "mg".data,
   "g".data, "unit".data, "units".data, "puff".data, "puffs".data,
   "dose".data, "doses".data]

/-- `normalizeUnit` lookup table (both service files carry the same map). -/
def unitNormMap : List (String × String) :=
  [("tablet", "tablet"), ("tab", "tablet"), ("tablets", "tablet"),
   ("capsule", "capsule"), ("cap", "capsule"), ("capsules", "capsule"),
   ("ml", "ml"), ("mg", "mg"), ("g", "g"),
   ("unit", "unit"), ("units", "unit"),
   ("puff", "puff"), ("puffs", "puff"),
   ("dose", "dose"), ("doses", "dose")]

/-- `normalizeUnit`: lowercase, then map known synonyms, else pass through. -/
def normalizeUnit (u : String) : String :=
  let n := String.mk (u.data.map Char.toLower)
  match unitNormMap.find? (fun p => p.1 == n) with
  | some p => p.2
  | none => n

/-- `\s*` -/
def wsStar : M := mStarG isWsC

/-- `\s+` -/
def wsPlus : M := mPlusG isWsC

/-- `(\d+)` -/
def digitsG : M := mGrp (mPlusG Char.isDigit)

/-- `/(tablet|tab|…|doses)/` — the unit-extraction regex. -/
def unitRe : M := mGrp (mAlts unitKws)

/-- `(?:take\s+)?` -/
def takeOpt : M := mOpt (mSeqs [mLit "take".data, wsPlus])

/-- Pattern 1 (range tier): `/(\d+)\s*-\s*(\d+)\s*(UNITS)/`. -/
def rangeRe : M :=
  mSeqs [digitsG, wsStar, mLit "-".data, wsStar, digitsG, wsStar,
         mGrp (mAlts unitKws)]

/-- Pattern 2 (multi-time tier):
`/(?:take\s+)?(\d+)\s*(UNITS)\s+(?:in\s+)?(?:the\s+)?(morning|am|breakfast|daytime).*?(?:and|,)\s*(\d+)\s*(?:(UNITS)\s+)?(?:at|in|with)\s+(?:the\s+)?(bedtime|night|pm|evening|dinner)/`. -/
def multiRe : M :=
  mSeqs [takeOpt, digitsG, wsStar, mGrp (mAlts unitKws), wsPlus,
         mOpt (mSeqs [mLit "in".data, wsPlus]),
         mOpt (mSeqs [mLit "the".data, wsPlus]),
         mGrp (mAlts ["morning".data, "am".data, "breakfast".data, "daytime".data]),
         mLazyDot, mAlts ["and".data, ",".data], wsStar, digitsG, wsStar,
         mOptC (mSeqs [mGrp (mAlts unitKws), wsPlus]),
         mAlts ["at".data, "in".data, "with".data], wsPlus,
         mOpt (mSeqs [mLit "the".data, wsPlus]),
         mGrp (mAlts ["bedtime".data, "night".data, "pm".data, "evening".data,
                      "dinner".data])]

/-- Pattern 3 (tapering tier):
`/(?:take\s+)?(\d+)\s*(UNITS)\s+(?:on\s+)?(?:day\s+)?(\d+).*?(?:then|after|followed by)\s+(\d+)\s*(UNITS)\s+(?:daily|once daily|qd)/`. -/
def taperRe : M :=
  mSeqs [takeOpt, digitsG, wsStar, mGrp (mAlts unitKws), wsPlus,
         mOpt (mSeqs [mLit "on".data, wsPlus]),
         mOpt (mSeqs [mLit "day".data, wsPlus]),
         digitsG, mLazyDot,
         mAlts ["then".data, "after".data, "followed by".data], wsPlus,
         digitsG, wsStar, mGrp (mAlts unitKws), wsPlus,
         mAlts ["daily".data, "once daily".data, "qd".data]]

/-- Pattern 4 (meal-times tier):
`/(?:take\s+)?(\d+)\s*(UNITS)\s+with\s+(breakfast|meals?|food).*?(?:and|,)\s+(lunch|dinner|meals?)/`
(`meals?` unfolds to the ordered alternatives `meals`, `meal`). -/
def mealRe : M :=
  mSeqs [takeOpt, digitsG, wsStar, mGrp (mAlts unitKws), wsPlus,
         mLit "with".data, wsPlus,
         mGrp (mAlts ["breakfast".data, "meals".data, "meal".data, "food".data]),
         mLazyDot, mAlts ["and".data, ",".data], wsPlus,
         mGrp (mAlts ["lunch".data, "dinner".data, "meals".data, "meal".data])]

/-- Simple-dose regex `/(\d+(?:\.\d+)?)\s*(UNITS)/`. -/
def doseRe : M :=
  mSeqs [mGrp (mSeqs [mPlusG Char.isDigit,
                      mOpt (mSeqs [mLit ".".data, mPlusG Char.isDigit])]),
         wsStar, mGrp (mAlts unitKws)]

/-- `/every\s*(\d+)\s*(hour|hr|h)/`. -/
def everyRe : M :=
  mSeqs [mLit "every".data, wsStar, digitsG, wsStar,
         mGrp (mAlts ["hour".data, "hr".data, "h".data])]

/-- PRN detection `/as needed|prn|when needed|if needed/.test(normalized)`. -/
def isPRNOf (n : List Char) : Bool :=
  cAny n ["as needed", "prn", "when needed", "if needed"]

/-- Unit extraction: first keyword match, normalized; `"unit"` when none. -/
def sigUnit (n : List Char) : String :=
  match mFind unitRe n with
  | some (u :: _) => normalizeUnit (String.mk u)
  | _ => "unit"

/-- Frequency keyword chain of the range tier (no once/daily/every cases). -/
def rangeFreq (n : List Char) : ℚ :=
  if cAny n ["twice", "2x", "bid"] then 2
  else if cAny n ["three times", "3x", "tid"] then 3
  else if cAny n ["four times", "4x", "qid"] then 4
  else 1

/-- `Math.round` (half away from zero is irrelevant here: JS rounds half up). -/
def jsRound (q : ℚ) : ℤ := ⌊q + 1 / 2⌋

/-- Frequency keyword chain of the default tier. -/
def simpleFreq (n : List Char) : ℚ :=
  if cAny n ["twice", "2x", "bid"] then 2
  else if cAny n ["three times", "3x", "tid"] then 3
  else if cAny n ["four times", "4x", "qid"] then 4
  else if cAny n ["once", "daily", "qd"] then 1
  else if containsSub "every".data n then
    match mFind everyRe n with
    | some (h :: _) => ((jsRound (24 / (digitsVal h : ℚ)) : ℤ) : ℚ)
    | _ => 1
  else 1

/-- Decimal digits of a natural number (fuelled; `fuel ≥ n` suffices). -/
def natToDigits : Nat → Nat → List Char
  | 0, _ => []
  | fuel + 1, n =>
    if n < 10 then [Char.ofNat (48 + n)]
    else natToDigits fuel (n / 10) ++ [Char.ofNat (48 + n % 10)]

/-- Decimal representation of a natural number (JS template-literal `${n}`). -/
def natRepr (n : Nat) : String := String.mk (natToDigits (n + 1) n)

/-- `SIGParserService.parseWithRules`: the tiered rule-based interpreter.
Each tier's wildcard arm also covers the unreachable case of a successful
match reporting fewer capture groups than the pattern has. -/
def parseWithRules (sig : String) : ParsedSIG :=
  let n := normSig sig
  let unit := sigUnit n
  let isPRN := isPRNOf n
  match mFind rangeRe n with
  | some (d1 :: d2 :: _) =>
    let minDose : ℚ := digitsVal d1
    let maxDose : ℚ := digitsVal d2
    let avgDose := (minDose + maxDose) / 2
    let frequency := rangeFreq n
    { dose := minDose, unit := unit,
      frequency := if isPRN then 0 else frequency,
      prn := some isPRN, isComplex := some false,
      averageDailyDose := some (avgDose * frequency),
      instructions := some sig }
  | _ =>
  match mFind multiRe n with
  | some (d1 :: _ :: _ :: d2 :: _) =>
    let morningDose : ℚ := digitsVal d1
    let eveningDose : ℚ := digitsVal d2
    { dose := morningDose, unit := unit, frequency := 2,
      isComplex := some true,
      schedule := some
        [{ dose := morningDose, frequency := 1, timeOfDay := some "morning" },
         { dose := eveningDose, frequency := 1, timeOfDay := some "bedtime" }],
      averageDailyDose := some (morningDose + eveningDose),
      instructions := some sig }
  | _ =>
  match mFind taperRe n with
  | some (d1 :: _ :: d3 :: d4 :: _) =>
    let initialDose : ℚ := digitsVal d1
    let initialDay : ℕ := digitsVal d3
    let maintenanceDose : ℚ := digitsVal d4
    { dose := maintenanceDose, unit := unit, frequency := 1,
      isComplex := some true,
      schedule := some
        [{ dose := initialDose, frequency := 1,
           dayRange := some ("day " ++ natRepr initialDay) },
         { dose := maintenanceDose, frequency := 1,
           dayRange := some ("days " ++ natRepr (initialDay + 1) ++ "+") }],
      averageDailyDose := some initialDose,
      instructions := some sig }
  | _ =>
  match mFind mealRe n with
  | some (d1 :: _) =>
    let dose : ℚ := digitsVal d1
    let frequency : ℚ := 3
    { dose := dose, unit := unit, frequency := frequency,
      isComplex := some true,
      schedule := some
        [{ dose := dose, frequency := 1, timeOfDay := some "breakfast" },
         { dose := dose, frequency := 1, timeOfDay := some "lunch" },
         { dose := dose, frequency := 1, timeOfDay := some "dinner" }],
      averageDailyDose := some (dose * frequency),
      instructions := some sig }
  | _ =>
    let dose : ℚ :=
      match mFind doseRe n with
      | some (dstr :: _) => decToRat dstr
      | _ => 1
    { dose := dose, unit := unit,
      frequency := if isPRN then 0 else simpleFreq n,
      prn := some isPRN, isComplex := some false,
      instructions := some sig }

/-! ## Quantity projection (`calculator.service.ts`) -/

/-- `/day\s+(\d+)/` -/
def singleDayRe : M := mSeqs [mLit "day".data, wsPlus, digitsG]

/-- `/days?\s+(\d+)\s*-\s*(\d+)/` -/
def daysRangeRe : M :=
  mSeqs [mLit "day".data, mOpt (mLit "s".data), wsPlus, digitsG, wsStar,
         mLit "-".data, wsStar, digitsG]

/-- `/days?\s+(\d+)\s*\+/` -/
def onwardsRe : M :=
  mSeqs [mLit "day".data, mOpt (mLit "s".data), wsPlus, digitsG, wsStar,
         mLit "+".data]

/-- `CalculatorService.parseDayRange` on normalized text: returns the
`{start, end}` pair (both components rational since `end` may be
`totalDays`). -/
def parseDayRangeCore (n : List Char) (totalDays : ℚ) : ℚ × ℚ :=
  match mFind singleDayRe n with
  | some (d :: _) => ((digitsVal d : ℚ), (digitsVal d : ℚ))
  | _ =>
  match mFind daysRangeRe n with
  | some (d1 :: d2 :: _) => ((digitsVal d1 : ℚ), (digitsVal d2 : ℚ))
  | _ =>
  match mFind onwardsRe n with
  | some (d :: _) => ((digitsVal d : ℚ), totalDays)
  | _ => (1, totalDays)

/-- `CalculatorService.parseDayRange` (lowercases and trims first). -/
def parseDayRange (dayRange : String) (totalDays : ℚ) : ℚ × ℚ :=
  parseDayRangeCore (trimChars (dayRange.data.map Char.toLower)) totalDays

/-- One schedule entry's contribution inside the complex branch of
`calculateTotalQuantity` (`entry.dayRange` is tested for JS truthiness,
so an empty string behaves like an absent one). -/
def scheduleEntryQty (daysSupply : ℚ) (entry : DosingScheduleEntry) : ℚ :=
  match entry.dayRange with
  | some dr =>
    if dr ≠ "" then
      let r := parseDayRange dr daysSupply
      let daysForEntry := r.2 - r.1 + 1
      if 0 < daysForEntry then entry.dose * entry.frequency * daysForEntry
      else 0
    else entry.dose * entry.frequency * daysSupply
  | none => entry.dose * entry.frequency * daysSupply

/-- `CalculatorService.calculateTotalQuantity`.  The function performs no
validation of `daysSupply`: it computes on whatever number it is handed. -/
def calculateTotalQuantity (parsedSIG : ParsedSIG) (daysSupply : ℚ) : ℚ :=
  if parsedSIG.prn.getD false then
    let avgDose :=
      match parsedSIG.averageDailyDose with
      | some a => if a = 0 then parsedSIG.dose else a
      | none => parsedSIG.dose
    let estimatedFrequency : ℚ :=
      if 0 < parsedSIG.frequency then parsedSIG.frequency * (1 / 2) else 2
    ((⌈avgDose * estimatedFrequency * daysSupply⌉ : ℤ) : ℚ)
  else if parsedSIG.isComplex.getD false &&
          (match parsedSIG.schedule with
           | some l => decide (0 < l.length)
           | none => false) then
    (parsedSIG.schedule.getD []).foldl
      (fun acc entry => acc + scheduleEntryQty daysSupply entry) 0
  else parsedSIG.dose * parsedSIG.frequency * daysSupply

/-! ## Package selection (`calculator.service.ts`) -/

/-- `matchesUnit`. -/
def matchesUnit (unit1 unit2 : String) : Bool :=
  normalizeUnit unit1 == normalizeUnit unit2

/-- `ndc.packageInfo?.quantity || 0` — the sort/equality key. -/
def pkgSizeOr0 (x : NDC) : ℚ :=
  match x.packageInfo with
  | some pi =>
    match pi.quantity with
    | some q => q
    | none => 0
  | none => 0

/-- Stable insertion: `x` goes before the first element not strictly
below it. -/
def insertBy (lt : α → α → Bool) (x : α) : List α → List α
  | [] => [x]
  | y :: ys => if lt y x then y :: insertBy lt x ys else x :: y :: ys

/-- Stable insertion sort — the model of JS `Array.prototype.sort`, which is
specified stable; with a numeric comparator both produce the same list. -/
def sortBy (lt : α → α → Bool) : List α → List α
  | [] => []
  | x :: xs => insertBy lt x (sortBy lt xs)

/-- One step of the best-single-package fold: the accumulator carries
`(bestMatch, bestVariance)`; `none` is the initial
`bestMatch = null, bestVariance = Infinity` state. -/
def bestSingleStep (t : ℚ) (acc : Option (DispenseRecommendation × ℚ))
    (x : NDC) : Option (DispenseRecommendation × ℚ) :=
  match x.packageInfo with
  | none => acc
  | some pi =>
    match pi.quantity with
    | none => acc
    | some packageSize =>
      let packagesNeeded : ℤ := ⌈t / packageSize⌉
      let totalFromPackages : ℚ := packagesNeeded * packageSize
      let variance := totalFromPackages - t
      let variancePercent := variance / t * 100
      let better : Bool :=
        match acc with
        | none => true
        | some pr => decide (variancePercent < pr.2)
      if decide (0 ≤ variance) && better then
        some ({ ndc := x, packageCount := packagesNeeded,
                totalQuantity := totalFromPackages, unit := pi.unit,
                exactMatch := decide (variance = 0),
                overfill := if 0 < variance then some variance else none,
                variancePercentage := some variancePercent },
              variancePercent)
      else acc

/-- The best-single-package loop of `selectOptimalPackages`. -/
def bestSingle (t : ℚ) (l : List NDC) : Option (DispenseRecommendation × ℚ) :=
  l.foldl (bestSingleStep t) none

/-- The greedy loop of `findOptimalCombination`: walk the (descending-sorted)
candidates taking `floor(remaining / size)` packages of each; any candidate
with missing package data breaks the loop, as does `remaining ≤ 0`.
(For `size ≤ 0` — outside the data model's positive-size contract — JS would
produce Infinity/NaN artifacts; over `ℚ`, `remaining / 0 = 0` and the
candidate is skipped.) -/
def comboLoop (totalQuantity : ℚ) : List NDC → ℚ → List DispenseRecommendation
  | [], _ => []
  | x :: rest, remaining =>
    match x.packageInfo with
    | none => []
    | some pi =>
      match pi.quantity with
      | none => []
      | some packageSize =>
        if remaining ≤ 0 then []
        else
          let packagesNeeded : ℤ := ⌊remaining / packageSize⌋
          if 0 < packagesNeeded then
            { ndc := x, packageCount := packagesNeeded,
              totalQuantity := packagesNeeded * packageSize,
              unit := pi.unit, exactMatch := false,
              overfill := some (packagesNeeded * packageSize - remaining),
              variancePercentage :=
                some ((packagesNeeded * packageSize - remaining)
                      / totalQuantity * 100) } ::
              comboLoop totalQuantity rest (remaining - packagesNeeded * packageSize)
          else comboLoop totalQuantity rest remaining

/-- `CalculatorService.findOptimalCombination`. -/
def findOptimalCombination (totalQuantity : ℚ) (ndcs : List NDC) :
    List DispenseRecommendation :=
  let sorted :=
    sortBy (fun a b => decide (pkgSizeOr0 b < pkgSizeOr0 a))
      (ndcs.filter fun x => x.packageInfo.isSome && x.status == NDCStatus.active)
  comboLoop totalQuantity sorted totalQuantity

/-- The active/unit filter of `selectOptimalPackages`. -/
def activeFilter (unit : String) (availableNDCs : List NDC) : List NDC :=
  availableNDCs.filter fun x =>
    x.status == NDCStatus.active &&
    (match x.packageInfo with
     | some pi => matchesUnit pi.unit unit
     | none => false)

/-- `selectOptimalPackages`' candidate order: active matching packages sorted
ascending by package size (stably, as JS `sort` is). -/
def sortedCandidates (unit : String) (availableNDCs : List NDC) : List NDC :=
  sortBy (fun a b => decide (pkgSizeOr0 a < pkgSizeOr0 b))
    (activeFilter unit availableNDCs)

/-- The part of `selectOptimalPackages` that runs when no exact match is
taken: best single package, falling back to the greedy combination when there
is no eligible single package or its variance exceeds 20%.  (When
`bestMatch` is null the source returns the combination either way: a
non-empty combination is returned directly, and an empty one equals the
empty recommendation list.) -/
def selectRest (totalQuantity : ℚ) (unit : String) (availableNDCs : List NDC) :
    List DispenseRecommendation :=
  match bestSingle totalQuantity (sortedCandidates unit availableNDCs) with
  | none => findOptimalCombination totalQuantity (sortedCandidates unit availableNDCs)
  | some (bm, bv) =>
    if 20 < bv then
      let comb := findOptimalCombination totalQuantity (sortedCandidates unit availableNDCs)
      if comb.isEmpty then [bm] else comb
    else [bm]

/-- `CalculatorService.selectOptimalPackages`. -/
def selectOptimalPackages (totalQuantity : ℚ) (unit : String)
    (availableNDCs : List NDC) : List DispenseRecommendation :=
  if (activeFilter unit availableNDCs).isEmpty then []
  else
    match (sortedCandidates unit availableNDCs).find?
        (fun x => decide (pkgSizeOr0 x = totalQuantity)) with
    | some e =>
      (match e.packageInfo with
       | some pi =>
         match pi.quantity with
         | some q =>
           [{ ndc := e, packageCount := 1, totalQuantity := q,
              unit := pi.unit, exactMatch := true,
              variancePercentage := some 0 }]
         | none => selectRest totalQuantity unit availableNDCs
       | none => selectRest totalQuantity unit availableNDCs)
    | none => selectRest totalQuantity unit availableNDCs

/-! ## Variance analysis (`detectOverfillUnderfill`) -/

/-- Severity thresholds shared by the overfill and underfill branches. -/
def severityFor (p : ℚ) : String :=
  if 20 < p then "high" else if 10 < p then "medium" else "low"

/-- `CalculatorService.detectOverfillUnderfill`.  The `if (rec.overfill)` /
`if (rec.underfill)` tests are JS truthiness tests, so a stored `0` behaves
like an absent field; negative stored values are truthy. -/
def detectOverfillUnderfill (recommendations : List DispenseRecommendation)
    (totalQuantity : ℚ) : List Warning :=
  recommendations.flatMap fun r =>
    (match r.overfill with
     | some v =>
       if v ≠ 0 then
         [{ type := WarningType.overfill,
            severity := severityFor (r.variancePercentage.getD 0) }]
       else []
     | none => []) ++
    (match r.underfill with
     | some v =>
       if v ≠ 0 then
         [{ type := WarningType.underfill,
            severity := severityFor |r.variancePercentage.getD 0| }]
       else []
     | none => [])

/-! ## Upstream validation (`validation.utils.ts`) -/

/-- `validateDaysSupply` on a defined numeric input (the source's
undefined/null/NaN arms cannot arise for a `ℚ` argument;
`Number.isInteger` on `ℚ` is `den = 1`). -/
def validateDaysSupply (daysSupply : ℚ) : Option ValidationError :=
  if daysSupply ≤ 0 then
    some { field := "daysSupply",
           message := "Days supply must be greater than 0" }
  else if 365 < daysSupply then
    some { field := "daysSupply",
           message := "Days supply must be 365 or less" }
  else if daysSupply.den ≠ 1 then
    some { field := "daysSupply",
           message := "Days supply must be a whole number" }
  else none

/-! ## Auxiliary definitions for statements and witnesses -/

/-- The ten decimal digit characters: the alphabet of `\d`. -/
def digitChars : List Char := ['0', '1', '2', '3', '4', '5', '6', '7', '8', '9']

/-- A concrete active package record, for witnesses and counterexamples. -/
def mkPkg (id : String) (q : ℚ) : NDC :=
  { ndc := id,
    packageInfo := some { unit := "tablet", quantity := some q },
    status := NDCStatus.active }

/-! ## Matcher lemmas: consumed text, failure propagation, head evaluation -/

/-- A matcher only consumes from the front: every remaining input it reports
is a suffix of what it was given. -/
def SuffixSafe (m : M) : Prop := ∀ s p, p ∈ m s → p.2 <:+ s

theorem suffixSafe_mEps : SuffixSafe mEps := by
  intro s p hp
  simp [mEps] at hp
  simp [hp]

theorem suffixSafe_mLit (pat : List Char) : SuffixSafe (mLit pat) := by
  intro s p hp
  simp only [mLit] at hp
  split at hp
  · simp at hp
    subst hp
    exact List.drop_suffix _ _
  · simp at hp

theorem suffixSafe_mAlts (ps : List (List Char)) : SuffixSafe (mAlts ps) := by
  intro s p hp
  simp only [mAlts, List.mem_filterMap] at hp
  obtain ⟨q, -, hq⟩ := hp
  split at hq
  · cases hq
    exact List.drop_suffix _ _
  · cases hq

theorem suffixSafe_mStarG (p : Char → Bool) : SuffixSafe (mStarG p) := by
  intro s q hq
  simp only [mStarG, List.mem_map] at hq
  obtain ⟨j, -, hj⟩ := hq
  subst hj
  exact List.drop_suffix _ _

theorem suffixSafe_mPlusG (p : Char → Bool) : SuffixSafe (mPlusG p) := by
  intro s q hq
  simp only [mPlusG, List.mem_map] at hq
  obtain ⟨j, -, hj⟩ := hq
  subst hj
  exact List.drop_suffix _ _

theorem suffixSafe_mLazyDot : SuffixSafe mLazyDot := by
  intro s q hq
  simp only [mLazyDot, List.mem_map] at hq
  obtain ⟨j, -, hj⟩ := hq
  subst hj
  exact List.drop_suffix _ _

theorem suffixSafe_mOpt {a : M} (h : SuffixSafe a) : SuffixSafe (mOpt a) := by
  intro s p hp
  simp only [mOpt, List.mem_append, List.mem_singleton] at hp
  rcases hp with hp | hp
  · exact h s p hp
  · simp [hp]

theorem suffixSafe_mOptC {a : M} (h : SuffixSafe a) : SuffixSafe (mOptC a) := by
  intro s p hp
  simp only [mOptC, List.mem_append, List.mem_singleton] at hp
  rcases hp with hp | hp
  · exact h s p hp
  · simp [hp]

theorem suffixSafe_mGrp {a : M} (h : SuffixSafe a) : SuffixSafe (mGrp a) := by
  intro s p hp
  simp only [mGrp, List.mem_map] at hp
  obtain ⟨q, hq, hq2⟩ := hp
  have := h s q hq
  subst hq2
  exact this

theorem suffixSafe_mSeq {a b : M} (ha : SuffixSafe a) (hb : SuffixSafe b) :
    SuffixSafe (mSeq a b) := by
  intro s p hp
  simp only [mSeq, List.mem_flatMap, List.mem_map] at hp
  obtain ⟨q, hq, r, hr, hr2⟩ := hp
  have h1 := ha s q hq
  have h2 := hb q.2 r hr
  subst hr2
  exact h2.trans h1

/-- `m` produces no match on any suffix of `s`. -/
def NilOn (m : M) (s : List Char) : Prop := ∀ r, r <:+ s → m r = []

theorem nilOn_mSeq_left {a b : M} {s : List Char} (h : NilOn a s) :
    NilOn (mSeq a b) s := by
  intro r hr
  simp [mSeq, h r hr]

theorem nilOn_mSeq_right {a b : M} {s : List Char} (ha : SuffixSafe a)
    (hb : NilOn b s) : NilOn (mSeq a b) s := by
  intro r hr
  simp only [mSeq]
  rw [List.flatMap_eq_nil_iff]
  intro q hq
  rw [hb q.2 ((ha r q hq).trans hr)]
  rfl

theorem nilOn_mGrp {a : M} {s : List Char} (h : NilOn a s) : NilOn (mGrp a) s := by
  intro r hr
  simp [mGrp, h r hr]

theorem nilOn_mPlusG {p : Char → Bool} {s : List Char}
    (h : ∀ c ∈ s, p c = false) : NilOn (mPlusG p) s := by
  intro r hr
  match r with
  | [] => simp [mPlusG, maxTake]
  | c :: t =>
    have hc : p c = false := h c (hr.subset (by simp))
    simp [mPlusG, maxTake, hc]

theorem mLit_cons_eq_nil {ch : Char} {pat r : List Char} (h : ch ∉ r) :
    mLit (ch :: pat) r = [] := by
  match r with
  | [] => simp [mLit, List.isPrefixOf]
  | x :: xs =>
    have hx : (ch == x) = false := by
      simp only [beq_eq_false_iff_ne, ne_eq]
      rintro rfl
      exact h (by simp)
    simp [mLit, List.isPrefixOf, hx]

theorem nilOn_mLit_cons {ch : Char} {pat s : List Char} (h : ch ∉ s) :
    NilOn (mLit (ch :: pat)) s := by
  intro r hr
  exact mLit_cons_eq_nil fun hc => h (hr.subset hc)

theorem mFind_eq_none {m : M} {s : List Char} (h : NilOn m s) :
    mFind m s = none := by
  induction s with
  | nil => simp [mFind, h [] (by simp)]
  | cons c r ih =>
    rw [mFind, h (c :: r) List.suffix_rfl]
    exact ih fun r2 hr2 => h r2 (hr2.trans (List.suffix_cons c r))

/-! Head-evaluation lemmas: the highest-priority outcome of a composite
matcher, for inputs of known shape. -/

theorem mSeq_head {a b : M} {s r r2 : List Char} {ca cb : Caps}
    (ha : (a s).head? = some (ca, r)) (hb : (b r).head? = some (cb, r2)) :
    (mSeq a b s).head? = some (ca ++ cb, r2) := by
  match hA : a s with
  | [] => rw [hA] at ha; cases ha
  | pa :: ta =>
    rw [hA] at ha
    cases ha
    match hB : b r with
    | [] => rw [hB] at hb; cases hb
    | pb :: tb =>
      rw [hB] at hb
      cases hb
      simp [mSeq, hA, hB]

theorem mOpt_head {a : M} {s : List Char} {p : Caps × List Char}
    (h : (a s).head? = some p) : (mOpt a s).head? = some p := by
  match hA : a s with
  | [] => rw [hA] at h; cases h
  | pa :: ta =>
    rw [hA] at h
    cases h
    simp [mOpt, hA]

theorem mFind_cons_head {m : M} {c : Char} {r : List Char} {p : Caps × List Char}
    (h : (m (c :: r)).head? = some p) : mFind m (c :: r) = some p.1 := by
  match hM : m (c :: r) with
  | [] => rw [hM] at h; cases h
  | q :: t =>
    rw [hM] at h
    cases h
    rw [mFind, hM]

theorem mFind_cons_step {m : M} {c : Char} {r : List Char}
    (h : m (c :: r) = []) : mFind m (c :: r) = mFind m r := by
  rw [mFind, h]

theorem maxTake_append_all {p : Char → Bool} {l : List Char} (r : List Char)
    (h : ∀ c ∈ l, p c = true) :
    maxTake p (l ++ r) = l.length + maxTake p r := by
  induction l with
  | nil => simp
  | cons c t ih =>
    have hc := h c (by simp)
    have iht := ih fun x hx => h x (by simp [hx])
    rw [List.cons_append]
    have hstep : maxTake p (c :: (t ++ r)) = maxTake p (t ++ r) + 1 := by
      simp only [maxTake, hc, if_true]
    rw [hstep, iht, List.length_cons]
    omega

theorem maxTake_eq_zero {p : Char → Bool} {l : List Char}
    (h : ∀ c, l.head? = some c → p c = false) : maxTake p l = 0 := by
  match l with
  | [] => rfl
  | c :: t => simp [maxTake, h c rfl]

theorem mLit_append (pat rest : List Char) :
    mLit pat (pat ++ rest) = [([], rest)] := by
  have hpre : pat.isPrefixOf (pat ++ rest) = true := by
    induction pat with
    | nil => simp [List.isPrefixOf]
    | cons c t ih => simp [List.isPrefixOf, ih]
  simp [mLit, hpre, List.drop_left]

theorem wsStar_zero {s : List Char} (h : maxTake isWsC s = 0) :
    wsStar s = [([], s)] := by
  simp [wsStar, mStarG, h, List.range_succ_eq_map]

theorem wsPlus_one {xs : List Char} (h : maxTake isWsC xs = 0) :
    wsPlus (' ' :: xs) = [([], xs)] := by
  have h1 : maxTake isWsC (' ' :: xs) = 1 := by
    simp [maxTake, h, show isWsC ' ' = true by decide]
  simp [wsPlus, mPlusG, h1, List.range_succ_eq_map]

theorem mPlusG_head {p : Char → Bool} {ds : List Char} (rest : List Char)
    (hne : ds ≠ []) (hd : ∀ c ∈ ds, p c = true)
    (hrest : maxTake p rest = 0) :
    (mPlusG p (ds ++ rest)).head? = some (([] : Caps), rest) := by
  have hk : maxTake p (ds ++ rest) = ds.length := by
    rw [maxTake_append_all rest hd, hrest, Nat.add_zero]
  obtain ⟨m, hm⟩ : ∃ m, ds.length = m + 1 := by
    cases hlen : ds.length with
    | zero => exact absurd (List.length_eq_zero.mp hlen) hne
    | succ m => exact ⟨m, rfl⟩
  simp only [mPlusG, hk, hm, List.range_succ_eq_map, List.map_cons,
    List.head?_cons, Nat.sub_zero]
  rw [← hm, List.drop_left]

theorem digitsG_head {ds : List Char} (rest : List Char) (hne : ds ≠ [])
    (hd : ∀ c ∈ ds, c.isDigit = true)
    (hrest : maxTake Char.isDigit rest = 0) :
    (digitsG (ds ++ rest)).head? = some ([ds], rest) := by
  have ht := mPlusG_head (p := Char.isDigit) rest hne hd hrest
  match hM : mPlusG Char.isDigit (ds ++ rest) with
  | [] => rw [hM] at ht; cases ht
  | q :: t =>
    rw [hM] at ht
    cases ht
    simp only [digitsG, mGrp, hM, List.map_cons, List.head?_cons]
    rw [List.length_append, Nat.add_sub_cancel, List.take_left]

/-! ## Package-selection lemmas -/

theorem mem_insertBy {lt : α → α → Bool} {x a : α} {l : List α} :
    a ∈ insertBy lt x l ↔ a = x ∨ a ∈ l := by
  induction l with
  | nil => simp [insertBy]
  | cons y ys ih =>
    simp only [insertBy]
    split
    · simp only [List.mem_cons, ih]
      tauto
    · simp only [List.mem_cons]

theorem mem_sortBy {lt : α → α → Bool} {a : α} {l : List α} :
    a ∈ sortBy lt l ↔ a ∈ l := by
  induction l with
  | nil => simp [sortBy]
  | cons x xs ih =>
    simp only [sortBy, mem_insertBy, ih, List.mem_cons]

/-- Every item the greedy combination loop emits has no `underfill` field and
a non-positive `overfill` (the loop takes `floor(remaining / size)` packages,
never exceeding the remainder). -/
theorem floor_mul_le_self {rem sz : ℚ} (hrem : 0 < rem)
    (hn : (0 : ℤ) < ⌊rem / sz⌋) : (⌊rem / sz⌋ : ℚ) * sz ≤ rem := by
  rcases lt_trichotomy sz 0 with hsz | hsz | hsz
  · have h1 : (1 : ℤ) ≤ ⌊rem / sz⌋ := hn
    have h2 : (⌊rem / sz⌋ : ℚ) * sz ≤ 1 * sz := by
      apply mul_le_mul_of_nonpos_right _ (le_of_lt hsz)
      exact_mod_cast h1
    nlinarith
  · subst hsz
    simp [div_zero, Int.floor_zero] at hn
  · have h1 : (⌊rem / sz⌋ : ℚ) * sz ≤ rem / sz * sz :=
      mul_le_mul_of_nonneg_right (Int.floor_le _) (le_of_lt hsz)
    rw [div_mul_cancel₀ _ (ne_of_gt hsz)] at h1
    exact h1

theorem comboLoop_item_spec {t : ℚ} {l : List NDC} {rem : ℚ}
    {it : DispenseRecommendation} (h : it ∈ comboLoop t l rem) :
    it.underfill = none ∧ ∃ v, it.overfill = some v ∧ v ≤ 0 := by
  induction l generalizing rem with
  | nil => simp [comboLoop] at h
  | cons x rest ih =>
    simp only [comboLoop] at h
    split at h
    · simp at h
    · split at h
      · simp at h
      · rename_i pi _ sz _
        split at h
        · simp at h
        · rename_i hrem
          split at h
          · rename_i hn
            rcases List.mem_cons.mp h with rfl | hmem
            · exact ⟨rfl, _, rfl, by
                have := floor_mul_le_self (lt_of_not_le hrem) hn
                linarith⟩
            · exact ih hmem
          · exact ih h

/-- The greedy combination loop never dispenses more than the remainder it
started from. -/
theorem comboLoop_sum_le {t : ℚ} {l : List NDC} {rem : ℚ} (h : 0 ≤ rem) :
    ((comboLoop t l rem).map (fun it => it.totalQuantity)).sum ≤ rem := by
  induction l generalizing rem with
  | nil => simpa [comboLoop] using h
  | cons x rest ih =>
    simp only [comboLoop]
    split
    · simpa using h
    · split
      · simpa using h
      · rename_i pi _ sz _
        split
        · simpa using h
        · rename_i hrem
          split
          · rename_i hn
            have hle := floor_mul_le_self (lt_of_not_le hrem) hn
            have ih2 := @ih (rem - ⌊rem / sz⌋ * sz) (by linarith)
            simp only [List.map_cons, List.sum_cons]
            linarith
          · exact ih h

/-- Any result the best-single-package fold commits to covers the target:
only candidates with `variance ≥ 0` are eligible; and it never sets
`underfill`. -/
theorem bestSingle_spec {t : ℚ} {l : List NDC} {pr : DispenseRecommendation × ℚ}
    (h : bestSingle t l = some pr) :
    t ≤ pr.1.totalQuantity ∧ pr.1.underfill = none := by
  suffices H : ∀ (l : List NDC) (acc : Option (DispenseRecommendation × ℚ)),
      (∀ q, acc = some q → t ≤ q.1.totalQuantity ∧ q.1.underfill = none) →
      ∀ q, l.foldl (bestSingleStep t) acc = some q →
      t ≤ q.1.totalQuantity ∧ q.1.underfill = none by
    exact H l none (fun q hq => by cases hq) pr h
  intro l
  induction l with
  | nil =>
    intro acc hacc q hq
    exact hacc q hq
  | cons x rest ih =>
    intro acc hacc q hq
    rw [List.foldl_cons] at hq
    refine ih _ ?_ q hq
    intro q2 hq2
    simp only [bestSingleStep] at hq2
    split at hq2
    · exact hacc q2 hq2
    · split at hq2
      · exact hacc q2 hq2
      · split at hq2
        · rename_i pi _ sz _ hcond
          cases hq2
          have h0 : (0 : ℚ) ≤ (⌈t / sz⌉ : ℚ) * sz - t := by
            have h1 := (Bool.and_eq_true _ _).mp hcond
            exact of_decide_eq_true h1.1
          constructor
          · simpa using h0
          · rfl
        · exact hacc q2 hq2

/-- Case analysis on the plan `selectOptimalPackages` returns: empty,
an exact-match singleton, the greedy combination, or the best single
package. -/
theorem selectRest_cases (t : ℚ) (u : String) (ps : List NDC) :
    selectRest t u ps = findOptimalCombination t (sortedCandidates u ps) ∨
    (∃ bm bv, bestSingle t (sortedCandidates u ps) = some (bm, bv) ∧
      selectRest t u ps = [bm]) := by
  unfold selectRest
  split
  · exact Or.inl rfl
  · rename_i bm bv heq
    by_cases hbv : 20 < bv
    · rw [if_pos hbv]
      by_cases hco : (findOptimalCombination t (sortedCandidates u ps)).isEmpty
      · simp only [hco, if_true]
        exact Or.inr ⟨bm, bv, heq, rfl⟩
      · simp only [hco, if_false]
        exact Or.inl rfl
    · rw [if_neg hbv]
      exact Or.inr ⟨bm, bv, heq, rfl⟩

theorem selectOptimalPackages_cases (t : ℚ) (u : String) (ps : List NDC) :
    selectOptimalPackages t u ps = [] ∨
    (∃ e pi q, (sortedCandidates u ps).find?
        (fun x => decide (pkgSizeOr0 x = t)) = some e ∧
      e.packageInfo = some pi ∧ pi.quantity = some q ∧
      selectOptimalPackages t u ps =
        [{ ndc := e, packageCount := 1, totalQuantity := q, unit := pi.unit,
           exactMatch := true, variancePercentage := some 0 }]) ∨
    selectOptimalPackages t u ps = findOptimalCombination t (sortedCandidates u ps) ∨
    (∃ bm bv, bestSingle t (sortedCandidates u ps) = some (bm, bv) ∧
      selectOptimalPackages t u ps = [bm]) := by
  have hrest := selectRest_cases t u ps
  unfold selectOptimalPackages
  by_cases hemp : (activeFilter u ps).isEmpty
  · rw [if_pos hemp]
    exact Or.inl rfl
  · rw [if_neg hemp]
    split
    · rename_i e hfind
      split
      · rename_i pi hpi
        split
        · rename_i q hq
          exact Or.inr (Or.inl ⟨e, pi, q, hfind, hpi, hq, rfl⟩)
        · rcases hrest with h | ⟨bm, bv, hbs, h⟩
          · exact Or.inr (Or.inr (Or.inl h))
          · exact Or.inr (Or.inr (Or.inr ⟨bm, bv, hbs, h⟩))
      · rcases hrest with h | ⟨bm, bv, hbs, h⟩
        · exact Or.inr (Or.inr (Or.inl h))
        · exact Or.inr (Or.inr (Or.inr ⟨bm, bv, hbs, h⟩))
    · rcases hrest with h | ⟨bm, bv, hbs, h⟩
      · exact Or.inr (Or.inr (Or.inl h))
      · exact Or.inr (Or.inr (Or.inr ⟨bm, bv, hbs, h⟩))

theorem mem_of_getLast? {l : List α} {a : α} (h : l.getLast? = some a) :
    a ∈ l := by
  rw [List.getLast?_eq_head?_reverse] at h
  have hm : a ∈ l.reverse := by
    match hr : l.reverse, h with
    | x :: t, h => cases h; simp
  exact List.mem_reverse.mp hm

/-- No constructor site of `selectOptimalPackages` ever sets `underfill`. -/
theorem select_underfill_none {t : ℚ} {u : String} {ps : List NDC}
    {it : DispenseRecommendation} (h : it ∈ selectOptimalPackages t u ps) :
    it.underfill = none := by
  rcases selectOptimalPackages_cases t u ps with hc | ⟨e, pi, q, _, _, _, hc⟩ | hc |
    ⟨bm, bv, hbs, hc⟩
  · rw [hc] at h; simp at h
  · rw [hc] at h
    rcases List.mem_singleton.mp h with rfl
    rfl
  · rw [hc] at h
    unfold findOptimalCombination at h
    exact (comboLoop_item_spec h).1
  · rw [hc] at h
    rcases List.mem_singleton.mp h with rfl
    exact (bestSingle_spec hbs).2

/-- `detectOverfillUnderfill` on a plan without `underfill` fields emits no
UNDERFILL warning. -/
theorem detect_no_underfill {recs : List DispenseRecommendation} {tq : ℚ}
    (h : ∀ it ∈ recs, it.underfill = none) :
    ∀ w ∈ detectOverfillUnderfill recs tq, w.type ≠ WarningType.underfill := by
  intro w hw
  unfold detectOverfillUnderfill at hw
  rw [List.mem_flatMap] at hw
  obtain ⟨r, hr, hwr⟩ := hw
  rw [h r hr] at hwr
  rw [List.mem_append] at hwr
  rcases hwr with hwr | hwr
  · split at hwr
    · split at hwr
      · rcases List.mem_singleton.mp hwr with rfl
        intro hc
        cases hc
      · simp at hwr
    · simp at hwr
  · simp at hwr

/-! ## Claim theorems -/

/-- C3: for every positive target quantity, unit and package list, if some
active package whose unit matches the target unit (after synonym
normalization) has `quantityPerPackage` exactly equal to the target, then
`selectOptimalPackages` returns a plan of exactly one item with
`packageCount = 1`, `exactMatch = true` and `variancePercentage = 0`, and
the chosen package is the first such one in ascending package-size order
(the first hit of `find?` on the sorted candidate list). -/
theorem exact_match_invariant (t : ℚ) (u : String) (ps : List NDC)
    (ht : 0 < t)
    (hex : ∃ p ∈ ps, p.status = NDCStatus.active ∧
      ∃ pi, p.packageInfo = some pi ∧ matchesUnit pi.unit u = true ∧
        pi.quantity = some t) :
    ∃ e pi, (sortedCandidates u ps).find?
        (fun x => decide (pkgSizeOr0 x = t)) = some e ∧
      e.packageInfo = some pi ∧ pi.quantity = some t ∧
      selectOptimalPackages t u ps =
        [{ ndc := e, packageCount := 1, totalQuantity := t, unit := pi.unit,
           exactMatch := true, variancePercentage := some 0 }] := by
  obtain ⟨p, hmem, hact, pi0, hpi0, hmu, hq0⟩ := hex
  have hmemA : p ∈ activeFilter u ps := by
    rw [activeFilter, List.mem_filter]
    refine ⟨hmem, ?_⟩
    rw [hpi0] at *
    simp [hact, hmu, hpi0]
  have hmemS : p ∈ sortedCandidates u ps := by
    rw [sortedCandidates, mem_sortBy]
    exact hmemA
  have hsize : pkgSizeOr0 p = t := by simp [pkgSizeOr0, hpi0, hq0]
  have hex2 : ((sortedCandidates u ps).find?
      (fun x => decide (pkgSizeOr0 x = t))).isSome = true := by
    rw [List.find?_isSome]
    exact ⟨p, hmemS, by simp [hsize]⟩
  obtain ⟨e, hfind⟩ := Option.isSome_iff_exists.mp hex2
  have hfs := List.find?_some hfind
  have hsz : pkgSizeOr0 e = t := of_decide_eq_true hfs
  cases hpi : e.packageInfo with
  | none =>
    exfalso
    simp only [pkgSizeOr0, hpi] at hsz
    exact absurd hsz.symm (ne_of_gt ht)
  | some pi =>
    cases hq : pi.quantity with
    | none =>
      exfalso
      simp only [pkgSizeOr0, hpi, hq] at hsz
      exact absurd hsz.symm (ne_of_gt ht)
    | some q =>
      have hqt : q = t := by
        simp only [pkgSizeOr0, hpi, hq] at hsz
        exact hsz
      subst hqt
      refine ⟨e, pi, hfind, hpi, hq, ?_⟩
      have hne : ¬((activeFilter u ps).isEmpty = true) := by
        intro hc
        rw [List.isEmpty_iff] at hc
        rw [hc] at hmemA
        simp at hmemA
      unfold selectOptimalPackages
      rw [if_neg hne]
      simp only [hfind, hpi, hq]

/-- C3 witness: target 90 with active tablet packages of sizes 30 and 90:
the size-90 package is an exact match. -/
theorem exact_match_invariant_witness :
    ∃ e pi, (sortedCandidates "tablet" [mkPkg "a" 30, mkPkg "b" 90]).find?
        (fun x => decide (pkgSizeOr0 x = 90)) = some e ∧
      e.packageInfo = some pi ∧ pi.quantity = some 90 ∧
      selectOptimalPackages 90 "tablet" [mkPkg "a" 30, mkPkg "b" 90] =
        [{ ndc := e, packageCount := 1, totalQuantity := 90, unit := pi.unit,
           exactMatch := true, variancePercentage := some 0 }] :=
  exact_match_invariant 90 "tablet" [mkPkg "a" 30, mkPkg "b" 90] (by decide)
    ⟨mkPkg "b" 90, by decide, rfl,
     { unit := "tablet", quantity := some 90 }, rfl, by decide, rfl⟩

/-- C4 counterexample: with target 100 and a single active matching package
of size 70, the best single package overfills by 40% (> 20%), so the greedy
combination runs and returns a single-item plan dispensing 70 < 100 — a
single-package plan whose variance is negative, contradicting the claim
that every single-item plan has variance ≥ 0. -/
theorem single_item_plan_variance_cex :
    selectOptimalPackages 100 "tablet" [mkPkg "x" 70] =
      [{ ndc := mkPkg "x" 70, packageCount := 1, totalQuantity := 70,
         unit := "tablet", exactMatch := false, overfill := some (-30),
         variancePercentage := some (-30) }] ∧
    ¬((100 : ℚ) ≤ 70) := by
  exact ⟨by decide, by decide⟩

/-- C4 amended: every single-item plan returned by `selectOptimalPackages`
either covers the target (`variance ≥ 0`, i.e. `totalQuantity ≥ targetQty`)
or is a greedy-combination remainder item, recognizable by its non-positive
stored `overfill`; the exact-match and best-single-package steps never
underfill, but the combination fallback can. -/
theorem single_item_plan_variance (t : ℚ) (u : String) (ps : List NDC)
    (ht : 0 < t) (it : DispenseRecommendation)
    (h : selectOptimalPackages t u ps = [it]) :
    t ≤ it.totalQuantity ∨ ∃ v, it.overfill = some v ∧ v ≤ 0 := by
  rcases selectOptimalPackages_cases t u ps with hc | ⟨e, pi, q, hfind, hpi, hq, hc⟩ |
    hc | ⟨bm, bv, hbs, hc⟩
  · rw [h] at hc
    cases hc
  · rw [h] at hc
    injection hc with h1 h2
    subst h1
    have hfs := List.find?_some hfind
    have hsz : pkgSizeOr0 e = t := of_decide_eq_true hfs
    simp only [pkgSizeOr0, hpi, hq] at hsz
    left
    exact le_of_eq hsz.symm
  · have hmem : it ∈ findOptimalCombination t (sortedCandidates u ps) := by
      rw [← hc, h]
      simp
    unfold findOptimalCombination at hmem
    right
    exact (comboLoop_item_spec hmem).2
  · rw [h] at hc
    injection hc with h1 h2
    subst h1
    left
    exact (bestSingle_spec hbs).1

/-- C4 witness: target 60 with a single active package of size 30 yields the
two-package exact plan, which covers the target. -/
theorem single_item_plan_variance_witness :
    (60 : ℚ) ≤
      ({ ndc := mkPkg "a" 30, packageCount := 2, totalQuantity := 60,
         unit := "tablet", exactMatch := true, variancePercentage := some 0 } :
           DispenseRecommendation).totalQuantity ∨
    ∃ v,
      ({ ndc := mkPkg "a" 30, packageCount := 2, totalQuantity := 60,
         unit := "tablet", exactMatch := true, variancePercentage := some 0 } :
           DispenseRecommendation).overfill = some v ∧ v ≤ 0 :=
  single_item_plan_variance 60 "tablet" [mkPkg "a" 30] (by decide) _ (by decide)

/-- C6: for target 100 and a single active matching package of size 30 the
selector returns one item with `packageCount = 4`, `totalQuantity = 120`,
`overfill = 20` and `variancePercentage = 20`, and the overfill warning has
severity medium — high severity needs a variance strictly above 20%. -/
theorem scenario_d_overfill_medium :
    selectOptimalPackages 100 "tablet" [mkPkg "a" 30] =
      [{ ndc := mkPkg "a" 30, packageCount := 4, totalQuantity := 120,
         unit := "tablet", exactMatch := false, overfill := some 20,
         variancePercentage := some 20 }] ∧
    detectOverfillUnderfill
        (selectOptimalPackages 100 "tablet" [mkPkg "a" 30]) 100 =
      [{ type := WarningType.overfill, severity := "medium" }] ∧
    severityFor 20 = "medium" ∧ severityFor 21 = "high" :=
  ⟨by decide, by decide, by decide, by decide⟩

/-- C9: the greedy multi-package combination never overfills: the dispensed
total over all its items is at most the target, since each step takes
`floor(remaining / packageSize)` packages. -/
theorem greedy_combination_sum_le (t : ℚ) (ps : List NDC) (ht : 0 < t) :
    ((findOptimalCombination t ps).map (fun it => it.totalQuantity)).sum ≤ t := by
  unfold findOptimalCombination
  exact comboLoop_sum_le (le_of_lt ht)

/-- C9 witness: target 100 with a single size-70 package: the combination
dispenses 70 ≤ 100. -/
theorem greedy_combination_sum_le_witness :
    ((findOptimalCombination 100 [mkPkg "x" 70]).map
      (fun it => it.totalQuantity)).sum ≤ 100 :=
  greedy_combination_sum_le 100 [mkPkg "x" 70] (by decide)

/-- C10: no plan item of `selectOptimalPackages` ever has its `underfill`
field set; consequently `detectOverfillUnderfill` on such a plan never emits
an UNDERFILL warning; and a combination plan that falls short of the target
carries a non-positive `overfill` value on its last item. -/
theorem plans_never_underfill :
    (∀ (t : ℚ) (u : String) (ps : List NDC) (it : DispenseRecommendation),
      it ∈ selectOptimalPackages t u ps → it.underfill = none) ∧
    (∀ (t : ℚ) (u : String) (ps : List NDC) (w : Warning),
      w ∈ detectOverfillUnderfill (selectOptimalPackages t u ps) t →
      w.type ≠ WarningType.underfill) ∧
    (∀ (t : ℚ) (ps : List NDC) (lastItem : DispenseRecommendation),
      (findOptimalCombination t ps).getLast? = some lastItem →
      ((findOptimalCombination t ps).map (fun it => it.totalQuantity)).sum < t →
      ∃ v, lastItem.overfill = some v ∧ v ≤ 0) := by
  refine ⟨?_, ?_, ?_⟩
  · intro t u ps it h
    exact select_underfill_none h
  · intro t u ps w hw
    exact detect_no_underfill (fun it hit => select_underfill_none hit) w hw
  · intro t ps lastItem hlast _
    have hm := mem_of_getLast? hlast
    unfold findOptimalCombination at hm
    exact (comboLoop_item_spec hm).2

/-- C10 witness: concrete instances of all three conjuncts (the Scenario-D
plan item, its overfill warning, and the short 70-of-100 combination). -/
theorem plans_never_underfill_witness :
    ({ ndc := mkPkg "a" 30, packageCount := 4, totalQuantity := 120,
       unit := "tablet", exactMatch := false, overfill := some 20,
       variancePercentage := some 20 } :
         DispenseRecommendation).underfill = none ∧
    ({ type := WarningType.overfill, severity := "medium" } :
        Warning).type ≠ WarningType.underfill ∧
    ∃ v,
      ({ ndc := mkPkg "x" 70, packageCount := 1, totalQuantity := 70,
         unit := "tablet", exactMatch := false, overfill := some (-30),
         variancePercentage := some (-30) } :
           DispenseRecommendation).overfill = some v ∧ v ≤ 0 :=
  ⟨plans_never_underfill.1 100 "tablet" [mkPkg "a" 30] _ (by decide),
   plans_never_underfill.2.1 100 "tablet" [mkPkg "a" 30] _ (by decide),
   plans_never_underfill.2.2 100 [mkPkg "x" 70] _ (by decide) (by decide)⟩

set_option maxHeartbeats 4000000 in
/-- C2 counterexample: for "Take 1-2 tablets as needed" the range tier fires
with PRN set, and the source zeroes `frequency` under PRN
(`frequency: isPRN ? 0 : frequency`) and stores no `maxDose` on `ParsedSIG`
(the interface has no such field); the PRN projection then uses the
fallback estimated frequency 2, giving ceil(1.5 × 2 × 10) = 30, not 8.
So `frequency = 1` and `totalQuantity = 8` are both false. -/
theorem range_prn_scenario_cex :
    (parseWithRules "Take 1-2 tablets as needed").frequency = 0 ∧
    calculateTotalQuantity (parseWithRules "Take 1-2 tablets as needed") 10 = 30 ∧
    ¬((parseWithRules "Take 1-2 tablets as needed").frequency = 1 ∧
      calculateTotalQuantity (parseWithRules "Take 1-2 tablets as needed") 10 = 8) :=
  ⟨by decide, by decide, by decide⟩

set_option maxHeartbeats 4000000 in
/-- C2 amended: for "Take 1-2 tablets as needed" the interpreter returns
`dose = 1`, `unit = "tablet"`, `frequency = 0` (the range tier zeroes the
frequency under PRN), `prn = true`, `averageDailyDose = 1.5` and no
`maxDose` (ParsedSIG carries none); with `daysSupply = 10` the projected
total is `ceil(1.5 × 2 × 10) = 30`, the PRN branch's estimated frequency
being 2 whenever the parsed frequency is not positive. -/
theorem range_prn_scenario :
    parseWithRules "Take 1-2 tablets as needed" =
      { dose := 1, unit := "tablet", frequency := 0,
        instructions := some "Take 1-2 tablets as needed",
        isComplex := some false, prn := some true,
        averageDailyDose := some (3 / 2) } ∧
    calculateTotalQuantity (parseWithRules "Take 1-2 tablets as needed") 10 = 30 :=
  ⟨by decide, by decide⟩

set_option maxHeartbeats 4000000 in
/-- C8 counterexample: `calculateTotalQuantity` performs no validation and
raises nothing: handed the non-positive daysSupply −5 it silently returns
the number −10 (for "Take 1 tablet twice daily"), and handed the
non-integer 5/2 it returns 5 — contradicting the claim that a typed error
is raised inside the quantity projection. -/
theorem days_supply_validation_cex :
    calculateTotalQuantity (parseWithRules "Take 1 tablet twice daily") (-5) = -10 ∧
    calculateTotalQuantity (parseWithRules "Take 1 tablet twice daily") (5 / 2) = 5 :=
  ⟨by decide, by decide⟩

/-- C8 amended: the typed rejection of a non-positive or non-integer
daysSupply lives upstream, in `validateDaysSupply` (`validation.utils.ts`),
which returns a `ValidationError` for every such value; the quantity
projection itself computes on whatever number it receives. -/
theorem days_supply_validation (d : ℚ) (h : d ≤ 0 ∨ d.den ≠ 1) :
    (validateDaysSupply d).isSome = true := by
  unfold validateDaysSupply
  by_cases h1 : d ≤ 0
  · rw [if_pos h1]
    rfl
  · rw [if_neg h1]
    by_cases h2 : 365 < d
    · rw [if_pos h2]
      rfl
    · rw [if_neg h2]
      have h3 : d.den ≠ 1 := h.resolve_left h1
      rw [if_pos h3]
      rfl

/-- C8 witness: daysSupply −5 is rejected by the upstream validator. -/
theorem days_supply_validation_witness :
    (validateDaysSupply (-5)).isSome = true :=
  days_supply_validation (-5) (Or.inl (by decide))

/-- C7: whenever the interpreter reaches the tapering tier (the earlier range
and multi-time tiers did not match) and the tapering pattern matches with
captured initial dose N (group 1), start day D (group 3) and maintenance
dose M (group 4), the result is `isComplex = true`, `dose = M`,
`frequency = 1`, the two-entry schedule `[{dose: N, frequency: 1,
dayRange: "day D"}, {dose: M, frequency: 1, dayRange: "days D+1+"}]`, and
`averageDailyDose = N` — computed from only the first-day dose. -/
theorem tapering_tier_output (s : String) (d1 u1 d3 d4 : List Char)
    (restCaps : Caps)
    (hr : mFind rangeRe (normSig s) = none)
    (hm : mFind multiRe (normSig s) = none)
    (ht : mFind taperRe (normSig s) = some (d1 :: u1 :: d3 :: d4 :: restCaps)) :
    parseWithRules s =
      { dose := (digitsVal d4 : ℚ), unit := sigUnit (normSig s), frequency := 1,
        isComplex := some true,
        schedule := some
          [{ dose := (digitsVal d1 : ℚ), frequency := 1,
             dayRange := some ("day " ++ natRepr (digitsVal d3)) },
           { dose := (digitsVal d4 : ℚ), frequency := 1,
             dayRange := some ("days " ++ natRepr (digitsVal d3 + 1) ++ "+") }],
        averageDailyDose := some (digitsVal d1 : ℚ),
        instructions := some s } := by
  unfold parseWithRules
  simp only [hr, hm, ht]

set_option maxHeartbeats 100000000 in
/-- C7 witness: "2 g 1 then 1 g daily" (dose 2 g on day 1, then 1 g daily)
reaches the tapering tier and yields the claimed two-entry schedule with
maintenance dose 1, `averageDailyDose` 2 and day ranges "day 1", "days 2+". -/
theorem tapering_tier_output_witness :
    parseWithRules "2 g 1 then 1 g daily" =
      { dose := 1, unit := "g", frequency := 1,
        isComplex := some true,
        schedule := some
          [{ dose := 2, frequency := 1, dayRange := some "day 1" },
           { dose := 1, frequency := 1, dayRange := some "days 2+" }],
        averageDailyDose := some 2,
        instructions := some "2 g 1 then 1 g daily" } := by
  have h := tapering_tier_output "2 g 1 then 1 g daily"
    "2".data "g".data "1".data "1".data ["g".data]
    (by decide) (by decide) (by decide)
  exact h.trans (by decide)

set_option maxHeartbeats 4000000 in
/-- C1 counterexample: "as needed" matches no unit keyword, contains no
digit, matches no frequency keyword and none of the four complex-tier
patterns, yet the interpreter returns `frequency = 0` (the default tier
zeroes the frequency whenever a PRN keyword is present), not the claimed
default `frequency = 1`. -/
theorem parse_default_fallback_cex :
    mFind unitRe (normSig "as needed") = none ∧
    (∀ c ∈ normSig "as needed", c.isDigit = false) ∧
    cAny (normSig "as needed") ["twice", "2x", "bid", "three times", "3x",
      "tid", "four times", "4x", "qid", "once", "daily", "qd", "every"] = false ∧
    mFind rangeRe (normSig "as needed") = none ∧
    mFind multiRe (normSig "as needed") = none ∧
    mFind taperRe (normSig "as needed") = none ∧
    mFind mealRe (normSig "as needed") = none ∧
    (parseWithRules "as needed").frequency = 0 ∧
    (parseWithRules "as needed").frequency ≠ 1 := by
  refine ⟨by decide, by decide, by decide, by decide, by decide, by decide,
    by decide, by decide, by decide⟩

theorem cAny_eq_false_iff {l : List Char} {pats : List String} :
    cAny l pats = false ↔ ∀ p ∈ pats, containsSub p.data l = false := by
  simp [cAny, List.any_eq_false]

theorem nilOn_mSeqs_head {m : M} {ms : List M} {s : List Char}
    (h : NilOn m s) : NilOn (mSeqs (m :: ms)) s := by
  rw [mSeqs]
  exact nilOn_mSeq_left h

/-- C1 amended: the rule-based interpreter is a total function — defined for
every input string, so the never-throws contract holds by construction — and
an input whose normalized text matches no unit keyword, contains no digit,
matches no frequency keyword, no PRN keyword, and none of the four
complex-tier patterns parses to the default simple dosing
`dose = 1, unit = "unit", frequency = 1, prn = false, isComplex = false`.
(The PRN-keyword exclusion is forced by the counterexample: a PRN keyword
alone drives `frequency` to 0.) -/
theorem parse_default_fallback (s : String)
    (hUnit : mFind unitRe (normSig s) = none)
    (hNum : ∀ c ∈ normSig s, c.isDigit = false)
    (hFreq : cAny (normSig s) ["twice", "2x", "bid", "three times", "3x",
      "tid", "four times", "4x", "qid", "once", "daily", "qd", "every"] = false)
    (hPRN : isPRNOf (normSig s) = false)
    (hRange : mFind rangeRe (normSig s) = none)
    (hMulti : mFind multiRe (normSig s) = none)
    (hTaper : mFind taperRe (normSig s) = none)
    (hMeal : mFind mealRe (normSig s) = none) :
    parseWithRules s =
      { dose := 1, unit := "unit", frequency := 1, instructions := some s,
        isComplex := some false, prn := some false } := by
  have hAll := cAny_eq_false_iff.mp hFreq
  have hDose : mFind doseRe (normSig s) = none := by
    apply mFind_eq_none
    show NilOn doseRe (normSig s)
    rw [doseRe]
    exact nilOn_mSeqs_head (nilOn_mGrp (nilOn_mSeqs_head (nilOn_mPlusG hNum)))
  have hsub1 : cAny (normSig s) ["twice", "2x", "bid"] = false := by
    rw [cAny_eq_false_iff]
    intro p hp
    fin_cases hp <;> exact hAll _ (by decide)
  have hsub2 : cAny (normSig s) ["three times", "3x", "tid"] = false := by
    rw [cAny_eq_false_iff]
    intro p hp
    fin_cases hp <;> exact hAll _ (by decide)
  have hsub3 : cAny (normSig s) ["four times", "4x", "qid"] = false := by
    rw [cAny_eq_false_iff]
    intro p hp
    fin_cases hp <;> exact hAll _ (by decide)
  have hsub4 : cAny (normSig s) ["once", "daily", "qd"] = false := by
    rw [cAny_eq_false_iff]
    intro p hp
    fin_cases hp <;> exact hAll _ (by decide)
  have hEvery : containsSub "every".data (normSig s) = false :=
    hAll "every" (by decide)
  have hFreqSimple : simpleFreq (normSig s) = 1 := by
    simp [simpleFreq, hsub1, hsub2, hsub3, hsub4, hEvery]
  unfold parseWithRules
  simp only [hRange, hMulti, hTaper, hMeal, hDose, hPRN, sigUnit, hUnit,
    hFreqSimple, Bool.false_eq_true, if_false]

/-- C1 witness: "hello world" matches nothing and parses to the default
simple dosing. -/
theorem parse_default_fallback_witness :
    parseWithRules "hello world" =
      { dose := 1, unit := "unit", frequency := 1,
        instructions := some "hello world",
        isComplex := some false, prn := some false } :=
  parse_default_fallback "hello world" (by decide) (by decide) (by decide)
    (by decide) (by decide) (by decide) (by decide) (by decide)

/-! ## Day-range grammar lemmas (C5) -/

theorem digitChar_spec {c : Char} (h : c ∈ digitChars) :
    c.isDigit = true ∧ isWsC c = false ∧ c.toLower = c ∧
    c ≠ 'd' ∧ c ≠ '-' ∧ c ≠ '+' := by
  fin_cases h <;>
    exact ⟨by decide, by decide, by decide, by decide, by decide, by decide⟩

theorem map_toLower_digits {ds : List Char} (h : ∀ c ∈ ds, c ∈ digitChars) :
    ds.map Char.toLower = ds := by
  induction ds with
  | nil => rfl
  | cons c t ih =>
    rw [List.map_cons, (digitChar_spec (h c (by simp))).2.2.1,
      ih fun x hx => h x (by simp [hx])]

theorem trimChars_eq_self {l : List Char}
    (h1 : ∀ c, l.head? = some c → isWsC c = false)
    (h2 : ∀ c, l.getLast? = some c → isWsC c = false) :
    trimChars l = l := by
  match l with
  | [] => rfl
  | a :: t =>
    have ha : isWsC a = false := h1 a rfl
    unfold trimChars
    rw [List.dropWhile_cons]
    simp only [ha, Bool.false_eq_true, if_false]
    match hr : (a :: t).reverse with
    | [] => exact absurd hr (by simp)
    | z :: w =>
      have hz : isWsC z = false := h2 z (by
        rw [List.getLast?_eq_head?_reverse, hr]
        rfl)
      rw [List.dropWhile_cons]
      simp only [hz, Bool.false_eq_true, if_false]
      rw [← hr, List.reverse_reverse]

theorem maxTake_ws_of_digits {ds : List Char} (h : ∀ c ∈ ds, c ∈ digitChars) :
    maxTake isWsC ds = 0 := by
  match ds with
  | [] => rfl
  | c :: t =>
    have := (digitChar_spec (h c (by simp))).2.1
    simp [maxTake, this]

theorem head?_of_eq_single {m : M} {s r : List Char} {c : Caps}
    (h : m s = [(c, r)]) : (m s).head? = some (c, r) := by
  rw [h]
  rfl

set_option maxHeartbeats 4000000 in
/-- C5 counterexample: "day 50" with daysSupply 10 resolves to the interval
[50, 50], which does not lie within [1, 10]: `parseDayRange` never clamps
its result to [1, daysSupply]. -/
theorem parse_day_range_clamp_cex :
    parseDayRange "day 50" 10 = (50, 50) ∧ ¬((50 : ℚ) ≤ 10) :=
  ⟨by decide, by decide⟩

theorem singleDay_day_success {ds : List Char} (hne : ds ≠ [])
    (hd : ∀ c ∈ ds, c ∈ digitChars) :
    mFind singleDayRe ('d' :: 'a' :: 'y' :: ' ' :: ds) = some [ds] := by
  have hdig : ∀ c ∈ ds, c.isDigit = true := fun c hc => (digitChar_spec (hd c hc)).1
  have h1 : (mLit "day".data ('d' :: 'a' :: 'y' :: ' ' :: ds)).head? =
      some ([], ' ' :: ds) :=
    head?_of_eq_single (mLit_append "day".data (' ' :: ds))
  have h2 : (wsPlus (' ' :: ds)).head? = some ([], ds) :=
    head?_of_eq_single (wsPlus_one (maxTake_ws_of_digits hd))
  have h3 : (digitsG (ds ++ [])).head? = some ([ds], []) :=
    digitsG_head [] hne hdig rfl
  rw [List.append_nil] at h3
  have h4 : ((mEps : M) []).head? = some ([], []) := rfl
  have hc := mSeq_head h3 h4
  have hb := mSeq_head h2 hc
  have ha := mSeq_head h1 hb
  have hfind : mFind singleDayRe ('d' :: 'a' :: 'y' :: ' ' :: ds) =
      some ([] ++ ([] ++ ([ds] ++ []))) := mFind_cons_head ha
  simpa using hfind

theorem singleDay_days_none {rest : List Char} (hnod : 'd' ∉ rest) :
    mFind singleDayRe ('d' :: 'a' :: 'y' :: 's' :: rest) = none := by
  have hfail : singleDayRe ('d' :: 'a' :: 'y' :: 's' :: rest) = [] := by
    have h1 : mLit "day".data ('d' :: 'a' :: 'y' :: 's' :: rest) =
        [([], 's' :: rest)] := mLit_append "day".data ('s' :: rest)
    have hws : wsPlus ('s' :: rest) = [] := by
      have h0 : maxTake isWsC ('s' :: rest) = 0 := maxTake_eq_zero (by
        intro c hc
        rw [List.head?_cons] at hc
        cases hc
        decide)
      simp [wsPlus, mPlusG, h0]
    show mSeq (mLit "day".data) (mSeq wsPlus (mSeq digitsG mEps)) _ = []
    simp [mSeq, h1, hws]
  rw [mFind_cons_step hfail]
  apply mFind_eq_none
  have hnotin : 'd' ∉ ('a' :: 'y' :: 's' :: rest : List Char) := by
    intro hmem
    simp only [List.mem_cons] at hmem
    rcases hmem with h | h | h | h
    · cases h
    · cases h
    · cases h
    · exact hnod h
  exact nilOn_mSeqs_head (nilOn_mLit_cons hnotin)

theorem daysRange_none_of_no_dash {l : List Char} (h : '-' ∉ l) :
    mFind daysRangeRe l = none := by
  apply mFind_eq_none
  show NilOn daysRangeRe l
  refine nilOn_mSeq_right (suffixSafe_mLit _) ?_
  refine nilOn_mSeq_right (suffixSafe_mOpt (suffixSafe_mLit _)) ?_
  refine nilOn_mSeq_right (suffixSafe_mPlusG _) ?_
  refine nilOn_mSeq_right (suffixSafe_mGrp (suffixSafe_mPlusG _)) ?_
  refine nilOn_mSeq_right (suffixSafe_mStarG _) ?_
  exact nilOn_mSeq_left (nilOn_mLit_cons h)

theorem daysRange_success {ds1 ds2 : List Char} (h1 : ds1 ≠ []) (h2 : ds2 ≠ [])
    (hd1 : ∀ c ∈ ds1, c ∈ digitChars) (hd2 : ∀ c ∈ ds2, c ∈ digitChars) :
    mFind daysRangeRe ('d' :: 'a' :: 'y' :: 's' :: ' ' :: (ds1 ++ '-' :: ds2)) =
      some [ds1, ds2] := by
  have hdig1 : ∀ c ∈ ds1, c.isDigit = true := fun c hc => (digitChar_spec (hd1 c hc)).1
  have hdig2 : ∀ c ∈ ds2, c.isDigit = true := fun c hc => (digitChar_spec (hd2 c hc)).1
  have e1 : (mLit "day".data
      ('d' :: 'a' :: 'y' :: 's' :: ' ' :: (ds1 ++ '-' :: ds2))).head? =
      some ([], 's' :: ' ' :: (ds1 ++ '-' :: ds2)) :=
    head?_of_eq_single (mLit_append "day".data ('s' :: ' ' :: (ds1 ++ '-' :: ds2)))
  have e2 : (mOpt (mLit "s".data) ('s' :: ' ' :: (ds1 ++ '-' :: ds2))).head? =
      some ([], ' ' :: (ds1 ++ '-' :: ds2)) :=
    mOpt_head (head?_of_eq_single (mLit_append "s".data (' ' :: (ds1 ++ '-' :: ds2))))
  have hx : maxTake isWsC (ds1 ++ '-' :: ds2) = 0 := maxTake_eq_zero (by
    intro c hc
    obtain ⟨e, es, rfl⟩ := List.exists_cons_of_ne_nil h1
    rw [List.cons_append, List.head?_cons] at hc
    cases hc
    exact (digitChar_spec (hd1 _ (by simp))).2.1)
  have e3 : (wsPlus (' ' :: (ds1 ++ '-' :: ds2))).head? =
      some ([], ds1 ++ '-' :: ds2) :=
    head?_of_eq_single (wsPlus_one hx)
  have hdash : maxTake Char.isDigit ('-' :: ds2) = 0 := maxTake_eq_zero (by
    intro c hc
    rw [List.head?_cons] at hc
    cases hc
    decide)
  have e4 : (digitsG (ds1 ++ '-' :: ds2)).head? = some ([ds1], '-' :: ds2) :=
    digitsG_head ('-' :: ds2) h1 hdig1 hdash
  have hdashws : maxTake isWsC ('-' :: ds2) = 0 := maxTake_eq_zero (by
    intro c hc
    rw [List.head?_cons] at hc
    cases hc
    decide)
  have e5 : (wsStar ('-' :: ds2)).head? = some ([], '-' :: ds2) :=
    head?_of_eq_single (wsStar_zero hdashws)
  have e6 : (mLit "-".data ('-' :: ds2)).head? = some ([], ds2) :=
    head?_of_eq_single (mLit_append "-".data ds2)
  have e7 : (wsStar ds2).head? = some ([], ds2) :=
    head?_of_eq_single (wsStar_zero (maxTake_ws_of_digits hd2))
  have e8 : (digitsG (ds2 ++ [])).head? = some ([ds2], []) :=
    digitsG_head [] h2 hdig2 rfl
  rw [List.append_nil] at e8
  have e9 : ((mEps : M) []).head? = some ([], []) := rfl
  have c8 := mSeq_head e8 e9
  have c7 := mSeq_head e7 c8
  have c6 := mSeq_head e6 c7
  have c5 := mSeq_head e5 c6
  have c4 := mSeq_head e4 c5
  have c3 := mSeq_head e3 c4
  have c2 := mSeq_head e2 c3
  have c1 := mSeq_head e1 c2
  have hfind := mFind_cons_head c1
  simpa using hfind

theorem onwards_success {ds : List Char} (hne : ds ≠ [])
    (hd : ∀ c ∈ ds, c ∈ digitChars) :
    mFind onwardsRe ('d' :: 'a' :: 'y' :: 's' :: ' ' :: (ds ++ ['+'])) =
      some [ds] := by
  have hdig : ∀ c ∈ ds, c.isDigit = true := fun c hc => (digitChar_spec (hd c hc)).1
  have e1 : (mLit "day".data
      ('d' :: 'a' :: 'y' :: 's' :: ' ' :: (ds ++ ['+']))).head? =
      some ([], 's' :: ' ' :: (ds ++ ['+'])) :=
    head?_of_eq_single (mLit_append "day".data ('s' :: ' ' :: (ds ++ ['+'])))
  have e2 : (mOpt (mLit "s".data) ('s' :: ' ' :: (ds ++ ['+']))).head? =
      some ([], ' ' :: (ds ++ ['+'])) :=
    mOpt_head (head?_of_eq_single (mLit_append "s".data (' ' :: (ds ++ ['+']))))
  have hx : maxTake isWsC (ds ++ ['+']) = 0 := maxTake_eq_zero (by
    intro c hc
    obtain ⟨e, es, rfl⟩ := List.exists_cons_of_ne_nil hne
    rw [List.cons_append, List.head?_cons] at hc
    cases hc
    exact (digitChar_spec (hd _ (by simp))).2.1)
  have e3 : (wsPlus (' ' :: (ds ++ ['+']))).head? = some ([], ds ++ ['+']) :=
    head?_of_eq_single (wsPlus_one hx)
  have hplus : maxTake Char.isDigit ['+'] = 0 := by decide
  have e4 : (digitsG (ds ++ ['+'])).head? = some ([ds], ['+']) :=
    digitsG_head ['+'] hne hdig hplus
  have e5 : (wsStar ['+']).head? = some ([], ['+']) :=
    head?_of_eq_single (wsStar_zero (by decide))
  have e6 : (mLit "+".data ['+']).head? = some ([], []) :=
    head?_of_eq_single (mLit_append "+".data [])
  have e7 : ((mEps : M) []).head? = some ([], []) := rfl
  have c6 := mSeq_head e6 e7
  have c5 := mSeq_head e5 c6
  have c4 := mSeq_head e4 c5
  have c3 := mSeq_head e3 c4
  have c2 := mSeq_head e2 c3
  have c1 := mSeq_head e1 c2
  have hfind := mFind_cons_head c1
  simpa using hfind

theorem norm_day_str {ds : List Char} (hne : ds ≠ [])
    (hd : ∀ c ∈ ds, c ∈ digitChars) :
    trimChars (('d' :: 'a' :: 'y' :: ' ' :: ds).map Char.toLower) =
      'd' :: 'a' :: 'y' :: ' ' :: ds := by
  have hmap : ('d' :: 'a' :: 'y' :: ' ' :: ds).map Char.toLower =
      'd' :: 'a' :: 'y' :: ' ' :: ds := by
    simp only [List.map_cons, map_toLower_digits hd,
      show Char.toLower 'd' = 'd' from by decide,
      show Char.toLower 'a' = 'a' from by decide,
      show Char.toLower 'y' = 'y' from by decide,
      show Char.toLower ' ' = ' ' from by decide]
  rw [hmap]
  apply trimChars_eq_self
  · intro c hc
    rw [List.head?_cons] at hc
    cases hc
    decide
  · intro c hc
    have hds : ('d' :: 'a' :: 'y' :: ' ' :: ds : List Char) =
        ['d', 'a', 'y', ' '] ++ ds := by simp
    rw [hds, List.getLast?_append_of_ne_nil _ hne] at hc
    exact (digitChar_spec (hd c (mem_of_getLast? hc))).2.1

theorem norm_days_range_str {ds1 ds2 : List Char} (h2 : ds2 ≠ [])
    (hd1 : ∀ c ∈ ds1, c ∈ digitChars) (hd2 : ∀ c ∈ ds2, c ∈ digitChars) :
    trimChars (('d' :: 'a' :: 'y' :: 's' :: ' ' :: (ds1 ++ '-' :: ds2)).map
      Char.toLower) = 'd' :: 'a' :: 'y' :: 's' :: ' ' :: (ds1 ++ '-' :: ds2) := by
  have hmap : ('d' :: 'a' :: 'y' :: 's' :: ' ' :: (ds1 ++ '-' :: ds2)).map
      Char.toLower = 'd' :: 'a' :: 'y' :: 's' :: ' ' :: (ds1 ++ '-' :: ds2) := by
    simp only [List.map_cons, List.map_append, map_toLower_digits hd1,
      map_toLower_digits hd2,
      show Char.toLower 'd' = 'd' from by decide,
      show Char.toLower 'a' = 'a' from by decide,
      show Char.toLower 'y' = 'y' from by decide,
      show Char.toLower 's' = 's' from by decide,
      show Char.toLower ' ' = ' ' from by decide,
      show Char.toLower '-' = '-' from by decide]
  rw [hmap]
  apply trimChars_eq_self
  · intro c hc
    rw [List.head?_cons] at hc
    cases hc
    decide
  · intro c hc
    have hds : ('d' :: 'a' :: 'y' :: 's' :: ' ' :: (ds1 ++ '-' :: ds2) : List Char) =
        (('d' :: 'a' :: 'y' :: 's' :: ' ' :: ds1) ++ ['-']) ++ ds2 := by simp
    rw [hds, List.getLast?_append_of_ne_nil _ h2] at hc
    exact (digitChar_spec (hd2 c (mem_of_getLast? hc))).2.1

theorem norm_days_on_str {ds : List Char}
    (hd : ∀ c ∈ ds, c ∈ digitChars) :
    trimChars (('d' :: 'a' :: 'y' :: 's' :: ' ' :: (ds ++ ['+'])).map
      Char.toLower) = 'd' :: 'a' :: 'y' :: 's' :: ' ' :: (ds ++ ['+']) := by
  have hmap : ('d' :: 'a' :: 'y' :: 's' :: ' ' :: (ds ++ ['+'])).map
      Char.toLower = 'd' :: 'a' :: 'y' :: 's' :: ' ' :: (ds ++ ['+']) := by
    simp only [List.map_cons, List.map_append, map_toLower_digits hd,
      show Char.toLower 'd' = 'd' from by decide,
      show Char.toLower 'a' = 'a' from by decide,
      show Char.toLower 'y' = 'y' from by decide,
      show Char.toLower 's' = 's' from by decide,
      show Char.toLower ' ' = ' ' from by decide,
      show Char.toLower '+' = '+' from by decide, List.map_nil]
  rw [hmap]
  apply trimChars_eq_self
  · intro c hc
    rw [List.head?_cons] at hc
    cases hc
    decide
  · intro c hc
    have hds : ('d' :: 'a' :: 'y' :: 's' :: ' ' :: (ds ++ ['+']) : List Char) =
        ('d' :: 'a' :: 'y' :: 's' :: ' ' :: ds) ++ ['+'] := by simp
    rw [hds, List.getLast?_append_of_ne_nil _ (by simp)] at hc
    rw [show (['+'] : List Char).getLast? = some '+' from rfl] at hc
    cases hc
    decide

/-- C5 amended: in the complex-schedule branch, for every decimal numeral N
(and M), `parseDayRange` resolves "day N" to [N, N], "days N-M" to [N, M],
"days N+" to [N, daysSupply], and any text matching none of the three
patterns to [1, daysSupply]; but the resolved interval is NOT clamped to
[1, daysSupply] — "day N" yields [N, N] even when N exceeds the days'
supply (see the counterexample), so the claimed containment does not hold. -/
theorem parse_day_range_grammar :
    (∀ (ds : List Char) (d : ℚ), ds ≠ [] → (∀ c ∈ ds, c ∈ digitChars) →
      parseDayRange (String.mk ('d' :: 'a' :: 'y' :: ' ' :: ds)) d =
        ((digitsVal ds : ℚ), (digitsVal ds : ℚ))) ∧
    (∀ (ds1 ds2 : List Char) (d : ℚ), ds1 ≠ [] → ds2 ≠ [] →
      (∀ c ∈ ds1, c ∈ digitChars) → (∀ c ∈ ds2, c ∈ digitChars) →
      parseDayRange
          (String.mk ('d' :: 'a' :: 'y' :: 's' :: ' ' :: (ds1 ++ '-' :: ds2))) d =
        ((digitsVal ds1 : ℚ), (digitsVal ds2 : ℚ))) ∧
    (∀ (ds : List Char) (d : ℚ), ds ≠ [] → (∀ c ∈ ds, c ∈ digitChars) →
      parseDayRange
          (String.mk ('d' :: 'a' :: 'y' :: 's' :: ' ' :: (ds ++ ['+']))) d =
        ((digitsVal ds : ℚ), d)) ∧
    (∀ (s : String) (d : ℚ),
      mFind singleDayRe (trimChars (s.data.map Char.toLower)) = none →
      mFind daysRangeRe (trimChars (s.data.map Char.toLower)) = none →
      mFind onwardsRe (trimChars (s.data.map Char.toLower)) = none →
      parseDayRange s d = (1, d)) := by
  refine ⟨?_, ?_, ?_, ?_⟩
  · intro ds d hne hd
    unfold parseDayRange
    rw [show (String.mk ('d' :: 'a' :: 'y' :: ' ' :: ds)).data =
      'd' :: 'a' :: 'y' :: ' ' :: ds from rfl, norm_day_str hne hd]
    unfold parseDayRangeCore
    simp only [singleDay_day_success hne hd]
  · intro ds1 ds2 d h1 h2 hd1 hd2
    have hnod : 'd' ∉ (' ' :: (ds1 ++ '-' :: ds2) : List Char) := by
      intro hm
      simp only [List.mem_cons, List.mem_append] at hm
      rcases hm with h | h | h | h
      · cases h
      · exact absurd rfl (digitChar_spec (hd1 _ h)).2.2.2.1
      · cases h
      · exact absurd rfl (digitChar_spec (hd2 _ h)).2.2.2.1
    unfold parseDayRange
    rw [show (String.mk ('d' :: 'a' :: 'y' :: 's' :: ' ' :: (ds1 ++ '-' :: ds2))).data =
      'd' :: 'a' :: 'y' :: 's' :: ' ' :: (ds1 ++ '-' :: ds2) from rfl,
      norm_days_range_str h2 hd1 hd2]
    unfold parseDayRangeCore
    simp only [singleDay_days_none hnod, daysRange_success h1 h2 hd1 hd2]
  · intro ds d hne hd
    have hnod : 'd' ∉ (' ' :: (ds ++ ['+']) : List Char) := by
      intro hm
      simp only [List.mem_cons, List.mem_append, List.mem_singleton] at hm
      rcases hm with h | h | h | h
      · cases h
      · exact absurd rfl (digitChar_spec (hd _ h)).2.2.2.1
      · cases h
      · cases h
    have hnodash : '-' ∉
        ('d' :: 'a' :: 'y' :: 's' :: ' ' :: (ds ++ ['+']) : List Char) := by
      intro hm
      simp only [List.mem_cons, List.mem_append, List.mem_singleton] at hm
      rcases hm with h | h | h | h | h | h | h | h
      · cases h
      · cases h
      · cases h
      · cases h
      · cases h
      · exact absurd rfl (digitChar_spec (hd _ h)).2.2.2.2.1
      · cases h
      · cases h
    unfold parseDayRange
    rw [show (String.mk ('d' :: 'a' :: 'y' :: 's' :: ' ' :: (ds ++ ['+']))).data =
      'd' :: 'a' :: 'y' :: 's' :: ' ' :: (ds ++ ['+']) from rfl,
      norm_days_on_str hd]
    unfold parseDayRangeCore
    simp only [singleDay_days_none hnod, daysRange_none_of_no_dash hnodash,
      onwards_success hne hd]
  · intro s d h1 h2 h3
    unfold parseDayRange parseDayRangeCore
    simp only [h1, h2, h3]

set_option maxHeartbeats 4000000 in
/-- C5 witness: "day 5", "days 2-5", "days 2+" and unrecognized text, with
daysSupply 7. -/
theorem parse_day_range_grammar_witness :
    parseDayRange "day 5" 7 = (5, 5) ∧
    parseDayRange "days 2-5" 7 = (2, 5) ∧
    parseDayRange "days 2+" 7 = (2, 7) ∧
    parseDayRange "whatever" 7 = (1, 7) := by
  refine ⟨?_, ?_, ?_, ?_⟩
  · exact (parse_day_range_grammar.1 ['5'] 7 (by decide) (by decide)).trans
      (by decide)
  · exact (parse_day_range_grammar.2.1 ['2'] ['5'] 7 (by decide) (by decide)
      (by decide) (by decide)).trans (by decide)
  · exact (parse_day_range_grammar.2.2.1 ['2'] 7 (by decide) (by decide)).trans
      (by decide)
  · exact parse_day_range_grammar.2.2.2 "whatever" 7 (by decide) (by decide)
      (by decide)

end NDCCalc
